import Mathlib

/-!
Verification development for the serum-dex fuzzing harness
`dex/fuzz/fuzz_targets/multiple_orders.rs`.

The harness replays a decoded action log against the exchange's instruction
interface, then runs a deterministic liquidation pass and checks financial
invariants.  The exchange itself (matching engine, account storage) is an
external collaborator reached only through `process_instruction`; it is
modelled here as an abstract step function on the world state.  Everything
on the harness side (action model, owner registry, bound calculators,
executor, driver, verifier) is embedded directly from the source.

Machine integers: `u64` values are modelled as `Nat` with explicit
saturating operations where the source uses `saturating_add` /
`saturating_mul`.
-/

namespace SerumFuzz

/-- `u64::MAX`, the saturation point of the source's saturating arithmetic. -/
def U64_MAX : Nat := 2 ^ 64 - 1

/-- `u64::saturating_add`. -/
def satAdd (a b : Nat) : Nat := min (a + b) U64_MAX

/-- `u64::saturating_mul`. -/
def satMul (a b : Nat) : Nat := min (a * b) U64_MAX

/-- Modelled from the spec: the lot-size multiplier for the base asset
(`COIN_LOT_SIZE`), defined in the fuzz support library which is outside
`src/`.  No claim depends on the concrete value. -/
def COIN_LOT_SIZE : Nat := 100000

/-- Modelled from the spec: the lot-size multiplier for the quote asset
(`PC_LOT_SIZE`), defined in the fuzz support library which is outside
`src/`.  No claim depends on the concrete value. -/
def PC_LOT_SIZE : Nat := 100

/-- `INITIAL_COIN_BALANCE` from the source. -/
def INITIAL_COIN_BALANCE : Nat := 1000000000

/-- `INITIAL_PC_BALANCE` from the source. -/
def INITIAL_PC_BALANCE : Nat := 3000000000

/-- `serum_dex::matching::Side`. -/
inductive Side where
  | bid
  | ask
deriving DecidableEq, Repr

/-- `serum_dex::instruction::NewOrderInstruction`: the fields the harness
reads (`side`, `limit_price`, `max_qty`, client order id).  `limit_price`
and `max_qty` are `NonZeroU64` in the source; their `.get()` values are
modelled as `Nat`. -/
structure NewOrderInstruction where
  side : Side
  limitPrice : Nat
  maxQty : Nat
  clientId : Nat
deriving DecidableEq, Repr

/-- `serum_dex::instruction::CancelOrderInstruction` as built by the
harness: `owner` is always `[0u64; 4]`. -/
structure CancelOrderInstruction where
  side : Side
  orderId : Nat
  owner : List Nat
  ownerSlot : Nat
deriving DecidableEq, Repr

/-- The exchange instructions the harness dispatches
(`MarketInstruction` variants used in the source). -/
inductive MarketInstruction where
  | NewOrder (inst : NewOrderInstruction)
  | CancelOrder (inst : CancelOrderInstruction)
  | CancelOrderByClientId (clientId : Nat)
  | MatchOrders (limit : Nat)
  | ConsumeEvents (limit : Nat)
  | SettleFunds
deriving DecidableEq, Repr

/-- The `DexErrorCode` values the harness inspects, plus a catch-all for
every other structured exchange error. -/
inductive DexErrorCode where
  | insufficientFunds
  | requestQueueFull
  | clientOrderIdIsZero
  | other (code : Nat)
deriving DecidableEq, Repr

/-- How a harness run can abort: a fatal `unwrap` on an unexpected exchange
error, the `panic!` for an accepted zero-client-id cancel, an
out-of-bounds slot index, or a verification assertion failure. -/
inductive Failure where
  | fatal (e : DexErrorCode)
  | zeroIdAccepted
  | indexOob
  | invariantViolation
deriving DecidableEq, Repr

/-- `OwnerId`: the raw random byte is reduced modulo 8 in the source's
`Arbitrary` instance, so the id space is exactly `Fin 8`. -/
abbrev OwnerId := Fin 8

/-- One simulated action (`enum Action` in the source).  `slot` is a `u8`
in the source; it is modelled as `Nat` (the executor guards `slot >= 128`
itself). -/
inductive Action where
  | PlaceOrder (ownerId : OwnerId) (instruction : NewOrderInstruction)
  | CancelOrder (ownerId : OwnerId) (slot : Nat) (byClientId : Bool)
  | MatchOrders (limit : Nat)
  | ConsumeEvents (limit : Nat)
  | SettleFunds (ownerId : OwnerId)
deriving DecidableEq, Repr

/-- The contents of an owner's `OpenOrders` account as read by the
harness: the order-id and client-order-id tables (capacity 128), the
per-slot side (the source derives it from bitmasks via `slot_side`), and
the four native balance totals. -/
structure OpenOrders where
  orders : List Nat
  clientOrderIds : List Nat
  slotSides : List (Option Side)
  nativeCoinFree : Nat
  nativeCoinTotal : Nat
  nativePcFree : Nat
  nativePcTotal : Nat
deriving DecidableEq, Repr

/-- `OpenOrders::slot_side`. -/
def OpenOrders.slotSide (oo : OpenOrders) (slot : Nat) : Option Side :=
  (oo.slotSides.get? slot).bind id

/-- An owner's resource bundle (`struct Owner` in the source).  Accounts
are identified by abstract `Nat` keys; `oo` is the result of
`open_orders()` (`none` while `strip_header` fails, i.e. before the
exchange initialises the account). -/
structure Owner where
  signerKey : Nat
  ordersKey : Nat
  coinKey : Nat
  pcKey : Nat
  oo : Option OpenOrders
  coinBalance : Nat
  pcBalance : Nat
deriving DecidableEq, Repr

/-- The mutable world: the owner registry, the exchange's fee-accrual
totals, a fresh-key allocator for provisioning, and the rest of the
exchange's account contents (request/event queues, book) folded into an
abstract `hidden` component. -/
structure World where
  owners : OwnerId → Option Owner
  coinFeesAccrued : Nat
  pcFeesAccrued : Nat
  nextKey : Nat
  hidden : Nat

/-- Keys of the market accounts created by `setup_market`. -/
def MARKET_KEY : Nat := 1000

def REQ_Q_KEY : Nat := 1001

def EVENT_Q_KEY : Nat := 1002

def BIDS_KEY : Nat := 1003

def ASKS_KEY : Nat := 1004

def COIN_VAULT_KEY : Nat := 1005

def PC_VAULT_KEY : Nat := 1006

def VAULT_SIGNER_KEY : Nat := 1007

def SPL_TOKEN_KEY : Nat := 1008

def RENT_KEY : Nat := 1009

/-- Harness execution state: the world plus the trace of instructions
dispatched to the exchange so far (instruction, ordered account-key
list). -/
structure SimState where
  world : World
  trace : List (MarketInstruction × List Nat)

/-- The opaque exchange collaborator: `process_instruction`.  A step takes
the packed instruction, the ordered account list and the world, and either
succeeds with a mutated world or returns a structured error. -/
structure Exchange where
  step : MarketInstruction → List Nat → World → Except DexErrorCode World

/-- The provisioned owners in ascending `OwnerId` order (the source's
`owners.iter().sorted_by_key(...)`; for order-independent uses this also
stands in for `owners.values()`). -/
def ownersList (w : World) : List (OwnerId × Owner) :=
  (List.finRange 8).filterMap fun i => (w.owners i).map fun o => (i, o)

/-- A per-owner bound map (`HashMap<OwnerId, u64>` with
`.get(..).copied().unwrap_or(0)` reads). -/
abbrev BoundMap := OwnerId → Nat

/-- `entry(owner_id).or_insert(0)` followed by a saturating add. -/
def bumpSat (m : BoundMap) (i : OwnerId) (x : Nat) : BoundMap :=
  fun j => if j = i then satAdd (m j) x else m j

/-- Loop body of `get_max_possible_coin_gained`. -/
def coinGainedGo : BoundMap → List Action → BoundMap
  | m, [] => m
  | m, .PlaceOrder ownerId instruction :: rest =>
      coinGainedGo
        (if instruction.side = .bid then
          bumpSat m ownerId (satMul instruction.maxQty COIN_LOT_SIZE)
        else m) rest
  | m, _ :: rest => coinGainedGo m rest

/-- `get_max_possible_coin_gained`. -/
def get_max_possible_coin_gained (actions : List Action) : BoundMap :=
  coinGainedGo (fun _ => 0) actions

/-- Loop body of `get_max_possible_coin_spent`. -/
def coinSpentGo : BoundMap → List Action → BoundMap
  | m, [] => m
  | m, .PlaceOrder ownerId instruction :: rest =>
      coinSpentGo
        (if instruction.side = .ask then
          bumpSat m ownerId (satMul instruction.maxQty COIN_LOT_SIZE)
        else m) rest
  | m, _ :: rest => coinSpentGo m rest

/-- `get_max_possible_coin_spent`. -/
def get_max_possible_coin_spent (actions : List Action) : BoundMap :=
  coinSpentGo (fun _ => 0) actions

/-- Loop body of `get_max_possible_pc_spent`. -/
def pcSpentGo : BoundMap → List Action → BoundMap
  | m, [] => m
  | m, .PlaceOrder ownerId instruction :: rest =>
      pcSpentGo
        (if instruction.side = .bid then
          let cost := satMul (satMul instruction.maxQty instruction.limitPrice) PC_LOT_SIZE
          bumpSat m ownerId (satAdd cost (cost / 100))
        else m) rest
  | m, _ :: rest => pcSpentGo m rest

/-- `get_max_possible_pc_spent`. -/
def get_max_possible_pc_spent (actions : List Action) : BoundMap :=
  pcSpentGo (fun _ => 0) actions

/-- The per-ask contribution in `get_max_possible_pc_gained`, given the
running maximum bid limit price. -/
def pcGainedContribution (maxPrice : Nat) (instruction : NewOrderInstruction) : Nat :=
  let maxTake := satMul (satMul instruction.maxQty maxPrice) PC_LOT_SIZE
  let maxProvide := satMul (satMul instruction.maxQty instruction.limitPrice) PC_LOT_SIZE
  max maxTake (satAdd maxProvide (maxProvide / 1000))

/-- Loop body of `get_max_possible_pc_gained`: threads the running maximum
bid limit price `maxPrice` through the log. -/
def pcGainedGo : Nat → BoundMap → List Action → BoundMap
  | _, m, [] => m
  | maxPrice, m, .PlaceOrder ownerId instruction :: rest =>
      let maxPrice' :=
        if instruction.side = .bid then max maxPrice instruction.limitPrice else maxPrice
      pcGainedGo maxPrice'
        (if instruction.side = .ask then
          bumpSat m ownerId (pcGainedContribution maxPrice' instruction)
        else m) rest
  | maxPrice, m, _ :: rest => pcGainedGo maxPrice m rest

/-- `get_max_possible_pc_gained`. -/
def get_max_possible_pc_gained (actions : List Action) : BoundMap :=
  pcGainedGo 0 (fun _ => 0) actions

/-- Modelled from the collaborator: `Pubkey::to_aligned_bytes`, the
canonical sort key derived from an account key's bytes.  On abstract `Nat`
keys it is the identity (an injective, order-preserving stand-in). -/
def toAlignedBytes (k : Nat) : Nat := k

/-- The orders accounts gathered by the `ConsumeEvents` arm: owners whose
`open_orders()` is live, before sorting. -/
def consumeGathered (w : World) : List Nat :=
  (ownersList w).filterMap fun io => if io.2.oo.isSome then some io.2.ordersKey else none

/-- The gathered orders accounts sorted by the canonical aligned-bytes
key (the source's `sorted_by_key(|a| a.key.to_aligned_bytes())`, a stable
sort; stable sorting is modelled with `insertionSort`). -/
def consumeSorted (w : World) : List Nat :=
  List.insertionSort (fun a b => toAlignedBytes a ≤ toAlignedBytes b) (consumeGathered w)

/-- `Owner::new`: fresh accounts funded with the fixed initial balances;
the orders account starts uninitialised (`open_orders()` is `None` until
the exchange initialises it). -/
def Owner.create (nk : Nat) : Owner :=
  { signerKey := nk, ordersKey := nk + 1, coinKey := nk + 2, pcKey := nk + 3,
    oo := none, coinBalance := INITIAL_COIN_BALANCE, pcBalance := INITIAL_PC_BALANCE }

/-- `run_action`: translate one `Action` into the exchange instruction and
dispatch it, classifying the outcome exactly as the source does.  The
`VERBOSE >= 2` / `>= 3` blocks of the source are read-only diagnostics and
print statements; they are not part of the state semantics. -/
def run_action (ex : Exchange) (a : Action) (s : SimState) : Except Failure SimState :=
  match a with
  | .PlaceOrder ownerId instruction =>
      let pair :=
        match s.world.owners ownerId with
        | some o => (o, s.world)
        | none =>
            let o := Owner.create s.world.nextKey
            (o, { s.world with
                    owners := fun j => if j = ownerId then some o else s.world.owners j,
                    nextKey := s.world.nextKey + 4 })
      let owner := pair.1
      let w := pair.2
      let accts := [MARKET_KEY, owner.ordersKey, REQ_Q_KEY,
                    if instruction.side = .bid then owner.pcKey else owner.coinKey,
                    owner.signerKey, COIN_VAULT_KEY, PC_VAULT_KEY, SPL_TOKEN_KEY, RENT_KEY]
      let tr := s.trace ++ [(MarketInstruction.NewOrder instruction, accts)]
      match ex.step (.NewOrder instruction) accts w with
      | .ok w' => .ok ⟨w', tr⟩
      | .error .insufficientFunds => .ok ⟨w, tr⟩
      | .error .requestQueueFull => .ok ⟨w, tr⟩
      | .error e => .error (.fatal e)
  | .CancelOrder ownerId slot byClientId =>
      if 128 ≤ slot then .ok s
      else
        match s.world.owners ownerId with
        | none => .ok s
        | some owner =>
            match owner.oo with
            | none => .ok s
            | some orders =>
                match orders.slotSide slot with
                | none => .ok s
                | some side =>
                    match orders.orders.get? slot, orders.clientOrderIds.get? slot with
                    | some orderId, some clientOrderId =>
                        let expectsZeroId := clientOrderId = 0 ∧ byClientId = true
                        let instrChoice : Option MarketInstruction :=
                          if byClientId then
                            if clientOrderId = 0 then none
                            else some (.CancelOrderByClientId clientOrderId)
                          else
                            some (.CancelOrder
                              { side := side, orderId := orderId,
                                owner := [0, 0, 0, 0], ownerSlot := slot })
                        match instrChoice with
                        | none => .ok s
                        | some instr =>
                            let accts := [MARKET_KEY, owner.ordersKey, REQ_Q_KEY, owner.signerKey]
                            let tr := s.trace ++ [(instr, accts)]
                            match ex.step instr accts s.world with
                            | .ok w' =>
                                if expectsZeroId then .error .zeroIdAccepted
                                else .ok ⟨w', tr⟩
                            | .error .requestQueueFull => .ok ⟨s.world, tr⟩
                            | .error .clientOrderIdIsZero =>
                                if expectsZeroId then .ok ⟨s.world, tr⟩
                                else .error (.fatal .clientOrderIdIsZero)
                            | .error e => .error (.fatal e)
                    | _, _ => .error .indexOob
  | .MatchOrders limit =>
      let accts := [MARKET_KEY, REQ_Q_KEY, EVENT_Q_KEY, BIDS_KEY, ASKS_KEY,
                    COIN_VAULT_KEY, PC_VAULT_KEY]
      let tr := s.trace ++ [(MarketInstruction.MatchOrders limit, accts)]
      match ex.step (.MatchOrders limit) accts s.world with
      | .ok w' => .ok ⟨w', tr⟩
      | .error e => .error (.fatal e)
  | .ConsumeEvents limit =>
      let gathered := consumeSorted s.world
      if gathered.isEmpty then .ok s
      else
        let accts := gathered ++ [MARKET_KEY, EVENT_Q_KEY, COIN_VAULT_KEY, PC_VAULT_KEY]
        let tr := s.trace ++ [(MarketInstruction.ConsumeEvents limit, accts)]
        match ex.step (.ConsumeEvents limit) accts s.world with
        | .ok w' => .ok ⟨w', tr⟩
        | .error e => .error (.fatal e)
  | .SettleFunds ownerId =>
      match s.world.owners ownerId with
      | none => .ok s
      | some owner =>
          if owner.oo.isSome then
            let accts := [MARKET_KEY, owner.ordersKey, owner.signerKey,
                          COIN_VAULT_KEY, PC_VAULT_KEY, owner.coinKey, owner.pcKey,
                          VAULT_SIGNER_KEY, SPL_TOKEN_KEY]
            let tr := s.trace ++ [(MarketInstruction.SettleFunds, accts)]
            match ex.step .SettleFunds accts s.world with
            | .ok w' => .ok ⟨w', tr⟩
            | .error e => .error (.fatal e)
          else .ok s

/-- One step of the liquidation list builder, for one provisioned owner:
for every occupied slot (`order_id > 0`) push a by-order-id cancel,
prefixed by a `MatchOrders(100)`/`ConsumeEvents(100)` pair whenever the
accumulated list length is a multiple of 8. -/
def liqStepOwner (acc : List Action) (io : OwnerId × Owner) : List Action :=
  match io.2.oo with
  | none => acc
  | some oo =>
      oo.orders.enum.foldl
        (fun acc2 si =>
          if 0 < si.2 then
            (if acc2.length % 8 = 0 then
              acc2 ++ [Action.MatchOrders 100, Action.ConsumeEvents 100]
            else acc2) ++ [Action.CancelOrder io.1 si.1 false]
          else acc2)
        acc

/-- The liquidation/settlement action list built by `run_actions` after
the main log completes (source lines 144-168): cancels for every occupied
slot of every owner in ascending `OwnerId` order with periodic
match/consume cycles, one final match/consume, then `SettleFunds` for
every owner that has live order-tracking state. -/
def liquidationActions (w : World) : List Action :=
  ((ownersList w).foldl liqStepOwner []
      ++ [Action.MatchOrders 100, Action.ConsumeEvents 100])
    ++ (ownersList w).filterMap
        fun io => if io.2.oo.isSome then some (Action.SettleFunds io.1) else none

/-- The main replay loop of `run_actions`: each action through
`run_action`; at verbosity level 4 and above an extra
`MatchOrders(100)`/`ConsumeEvents(100)` pair is forced after every
action. -/
def mainLoop (verbose : Nat) (ex : Exchange) : List Action → SimState → Except Failure SimState
  | [], s => .ok s
  | a :: rest, s =>
      match run_action ex a s with
      | .error e => .error e
      | .ok s1 =>
          if 4 ≤ verbose then
            match run_action ex (.MatchOrders 100) s1 with
            | .error e => .error e
            | .ok s2 =>
                match run_action ex (.ConsumeEvents 100) s2 with
                | .error e => .error e
                | .ok s3 => mainLoop verbose ex rest s3
          else mainLoop verbose ex rest s1

/-- The second loop of `run_actions`: replay the liquidation list. -/
def execAll (ex : Exchange) : List Action → SimState → Except Failure SimState
  | [], s => .ok s
  | a :: rest, s =>
      match run_action ex a s with
      | .error e => .error e
      | .ok s1 => execAll ex rest s1

/-- Sum of `get_token_account_balance` over all owners' coin accounts. -/
def totalCoinBal (w : World) : Nat :=
  ((ownersList w).map fun io => io.2.coinBalance).sum

/-- Sum of `get_token_account_balance` over all owners' pc accounts. -/
def totalPcBal (w : World) : Nat :=
  ((ownersList w).map fun io => io.2.pcBalance).sum

/-- `owners.len()`. -/
def ownerCount (w : World) : Nat := (ownersList w).length

/-- The per-owner verification assertions (source lines 193-248): the four
gain/loss bound checks and the zero-residual checks on
`native_coin_total` / `native_pc_total`. -/
def ownerCheck (mcg mcs mpg mps : BoundMap) (io : OwnerId × Owner) : Bool :=
  (if INITIAL_COIN_BALANCE < io.2.coinBalance then
    decide (io.2.coinBalance - INITIAL_COIN_BALANCE ≤ mcg io.1)
  else true) &&
  (if INITIAL_PC_BALANCE < io.2.pcBalance then
    decide (io.2.pcBalance - INITIAL_PC_BALANCE ≤ mpg io.1)
  else true) &&
  (if io.2.coinBalance < INITIAL_COIN_BALANCE then
    decide (INITIAL_COIN_BALANCE - io.2.coinBalance ≤ mcs io.1)
  else true) &&
  (if io.2.pcBalance < INITIAL_PC_BALANCE then
    decide (INITIAL_PC_BALANCE - io.2.pcBalance ≤ mps io.1)
  else true) &&
  (match io.2.oo with
   | some oo => decide (oo.nativeCoinTotal = 0) && decide (oo.nativePcTotal = 0)
   | none => true)

/-- The verifier (source lines 174-248): the two conservation
`assert_eq!`s followed by the per-owner checks. -/
def verifyChecks (w : World) (mcg mcs mpg mps : BoundMap) : Bool :=
  decide (totalCoinBal w + w.coinFeesAccrued = ownerCount w * INITIAL_COIN_BALANCE) &&
  decide (totalPcBal w + w.pcFeesAccrued = ownerCount w * INITIAL_PC_BALANCE) &&
  (ownersList w).all (ownerCheck mcg mcs mpg mps)

/-- The world right after `setup_market`: no owners, no fees accrued. -/
def initialWorld : World :=
  { owners := fun _ => none, coinFeesAccrued := 0, pcFeesAccrued := 0,
    nextKey := 0, hidden := 0 }

/-- `run_actions`: compute the four bound maps from the unexecuted log,
replay the log (with the verbosity-4 diagnostic forcing), build and replay
the liquidation list, then verify; returns the final state on success. -/
def run_actions (verbose : Nat) (ex : Exchange) (actions : List Action) :
    Except Failure SimState :=
  match mainLoop verbose ex actions ⟨initialWorld, []⟩ with
  | .error e => .error e
  | .ok s1 =>
      match execAll ex (liquidationActions s1.world) s1 with
      | .error e => .error e
      | .ok s2 =>
          if verifyChecks s2.world
              (get_max_possible_coin_gained actions)
              (get_max_possible_coin_spent actions)
              (get_max_possible_pc_gained actions)
              (get_max_possible_pc_spent actions) then
            .ok s2
          else .error .invariantViolation

/-! ### Specification-side definitions

These follow the wording of the spec sentences under verification and are
compared against the embedded source functions. -/

/-- Saturating sum of a list of `u64` values. -/
def satSum : List Nat → Nat
  | [] => 0
  | x :: xs => satAdd x (satSum xs)

/-- Pair each action with the running maximum bid limit price seen at or
before it in the log (0 before any bid appears). -/
def annotateMaxBid (maxPrice : Nat) : List Action → List (Action × Nat)
  | [] => []
  | a :: rest =>
      let maxPrice' :=
        match a with
        | .PlaceOrder _ instruction =>
            if instruction.side = .bid then max maxPrice instruction.limitPrice else maxPrice
        | _ => maxPrice
      (a, maxPrice') :: annotateMaxBid maxPrice' rest

/-- The spec's per-ask term for owner `i`: the maximum of the
aggressive-take value (ask max quantity × running-max bid limit price ×
pc lot size) and the passive-provide value (ask max quantity × the ask's
own limit price × pc lot size) inflated by the fixed maker-rebate
margin. -/
def askContribution (i : OwnerId) : Action × Nat → Option Nat
  | (.PlaceOrder j instruction, maxPrice) =>
      if j = i ∧ instruction.side = .ask then
        some (max (satMul (satMul instruction.maxQty maxPrice) PC_LOT_SIZE)
          (satAdd (satMul (satMul instruction.maxQty instruction.limitPrice) PC_LOT_SIZE)
            (satMul (satMul instruction.maxQty instruction.limitPrice) PC_LOT_SIZE / 1000)))
      else none
  | _ => none

/-- The spec's formula for the max-pc-gained bound of owner `i`: the sum
over the owner's ask `PlaceOrder`s of `askContribution`, with the
running-max bid price threaded through the log in generation order. -/
def maxPcGainedSpec (actions : List Action) (i : OwnerId) : Nat :=
  satSum ((annotateMaxBid 0 actions).filterMap (askContribution i))

/-- One step of the spec-side liquidation interleaving: prefix the next
cancel with a match/consume cycle whenever the accumulated list length is
a multiple of 8. -/
def cancelStep (acc : List Action) (c : Action) : List Action :=
  (if acc.length % 8 = 0 then
    acc ++ [Action.MatchOrders 100, Action.ConsumeEvents 100]
  else acc) ++ [c]

/-- Interleave a cancel list with match/consume cycles per `cancelStep`. -/
def interleaveCancels (cs : List Action) : List Action := cs.foldl cancelStep []

/-- The cancels the liquidation pass owes one owner: one by-order-id
cancel per occupied slot (`order_id > 0`), slots in ascending order. -/
def ownerCancels (io : OwnerId × Owner) : List Action :=
  match io.2.oo with
  | none => []
  | some oo =>
      oo.orders.enum.filterMap fun si =>
        if 0 < si.2 then some (Action.CancelOrder io.1 si.1 false) else none

/-- All liquidation cancels, owners in ascending `OwnerId` order. -/
def liqCancels (w : World) : List Action := ((ownersList w).map ownerCancels).flatten

/-- The liquidation settlements: `SettleFunds` for every owner with live
order-tracking state, ascending `OwnerId` order. -/
def liqSettles (w : World) : List Action :=
  (ownersList w).filterMap
    fun io => if io.2.oo.isSome then some (Action.SettleFunds io.1) else none

/-- The claim's reading of the liquidation cadence: a match/consume cycle
before every cancellation whose ordinal (counting cancellations only) is a
multiple of 8. -/
def every8Go : Nat → List Action → List Action
  | _, [] => []
  | k, c :: cs =>
      (if k % 8 = 0 then [Action.MatchOrders 100, Action.ConsumeEvents 100, c] else [c])
        ++ every8Go (k + 1) cs

/-- Cancel list interleaved per the claim: a cycle every 8 cancellations. -/
def every8Shape (cs : List Action) : List Action := every8Go 0 cs

/-- Well-formedness of the exchange-maintained open-orders tables: the
`[u64; 128]` arrays of the source have length 128. -/
def World.WF (w : World) : Prop :=
  ∀ (i : OwnerId) o oo, w.owners i = some o → o.oo = some oo →
    oo.orders.length = 128 ∧ oo.clientOrderIds.length = 128

/-! ### Concrete exchange models and inputs for witnesses -/

/-- A trivially conforming exchange: every instruction succeeds and leaves
all accounts unchanged. -/
def okExchange : Exchange := ⟨fun _ _ w => .ok w⟩

/-- A freshly initialised `OpenOrders` account: all slots free, all
balances zero. -/
def zeroOO : OpenOrders :=
  { orders := List.replicate 128 0, clientOrderIds := List.replicate 128 0,
    slotSides := List.replicate 128 none,
    nativeCoinFree := 0, nativeCoinTotal := 0, nativePcFree := 0, nativePcTotal := 0 }

/-- An exchange that initialises owner 0's open-orders account on the
first `NewOrder` and leaves everything else unchanged. -/
def initOOExchange : Exchange :=
  ⟨fun instr _ w =>
    match instr with
    | .NewOrder _ =>
        .ok { w with owners := fun j =>
          if j = 0 then (w.owners 0).map (fun o => { o with oo := some zeroOO }) else w.owners j }
    | _ => .ok w⟩

/-- A minimal bid order. -/
def inst0 : NewOrderInstruction := { side := .bid, limitPrice := 1, maxQty := 1, clientId := 0 }

/-- An open-orders account with slot 0 occupied by order id 5 and client
order id 0. -/
def ooC3 : OpenOrders :=
  { zeroOO with
      orders := (5 :: List.replicate 127 0),
      slotSides := (some Side.bid :: List.replicate 127 none) }

/-- An owner holding `ooC3`. -/
def ownerC3 : Owner := { Owner.create 0 with oo := some ooC3 }

/-- A state in which owner 2 has slot 0 occupied with client order id 0. -/
def sC3 : SimState :=
  ⟨{ initialWorld with owners := fun i => if i = 2 then some ownerC3 else none }, []⟩

/-- An owner with live order-tracking state and orders account key 5. -/
def ownerA : Owner :=
  { signerKey := 10, ordersKey := 5, coinKey := 12, pcKey := 13, oo := some zeroOO,
    coinBalance := INITIAL_COIN_BALANCE, pcBalance := INITIAL_PC_BALANCE }

/-- An owner with live order-tracking state and orders account key 1. -/
def ownerB : Owner :=
  { signerKey := 20, ordersKey := 1, coinKey := 22, pcKey := 23, oo := some zeroOO,
    coinBalance := INITIAL_COIN_BALANCE, pcBalance := INITIAL_PC_BALANCE }

/-- A state with two qualifying owners whose orders-account keys arrive
out of canonical order. -/
def sC8 : SimState :=
  ⟨{ initialWorld with
      owners := fun i => if i = 0 then some ownerA else if i = 1 then some ownerB else none }, []⟩

/-- An open-orders account whose first 7 slots are occupied. -/
def oo7 : OpenOrders := { zeroOO with orders := List.replicate 7 1 ++ List.replicate 121 0 }

/-- An owner holding `oo7`. -/
def owner7 : Owner := { Owner.create 0 with oo := some oo7 }

/-- A world with a single owner holding 7 occupied slots. -/
def w7 : World := { initialWorld with owners := fun i => if i = 0 then some owner7 else none }

/-- The initial harness state: fresh market, no owners, empty trace. -/
def sEmpty : SimState := ⟨initialWorld, []⟩

/-- The owner record produced by provisioning owner 0 from a fresh world
and letting `initOOExchange` initialise its open-orders account. -/
def ownerC2 : Owner :=
  { signerKey := 0, ordersKey := 1, coinKey := 2, pcKey := 3, oo := some zeroOO,
    coinBalance := INITIAL_COIN_BALANCE, pcBalance := INITIAL_PC_BALANCE }

/-! ### Lemmas -/

theorem satAdd_le (a b : Nat) : satAdd a b ≤ U64_MAX := by
  simp [satAdd]

theorem satAdd_zero (a : Nat) (h : a ≤ U64_MAX) : satAdd a 0 = a := by
  simp [satAdd]
  omega

theorem satAdd_assoc (a b c : Nat) : satAdd (satAdd a b) c = satAdd a (satAdd b c) := by
  simp only [satAdd, Nat.min_def]
  split <;> split <;> split <;> split <;> omega

theorem satSum_le (l : List Nat) : satSum l ≤ U64_MAX := by
  cases l with
  | nil => simp [satSum, U64_MAX]
  | cons x xs => exact satAdd_le _ _

theorem bumpSat_same (m : BoundMap) (i : OwnerId) (x : Nat) : bumpSat m i x i = satAdd (m i) x := by
  simp [bumpSat]

theorem bumpSat_other (m : BoundMap) (i j : OwnerId) (x : Nat) (h : j ≠ i) :
    bumpSat m i x j = m j := by
  simp [bumpSat, h]

theorem pcGainedGo_eq (l : List Action) :
    ∀ (maxPrice : Nat) (m : BoundMap) (i : OwnerId), m i ≤ U64_MAX →
      pcGainedGo maxPrice m l i
        = satAdd (m i) (satSum ((annotateMaxBid maxPrice l).filterMap (askContribution i))) := by
  induction l with
  | nil =>
      intro maxPrice m i hm
      simp [pcGainedGo, annotateMaxBid, satSum, satAdd_zero _ hm]
  | cons a rest ih =>
      intro maxPrice m i hm
      cases a with
      | PlaceOrder j instruction =>
          obtain ⟨side, limitPrice, maxQty, clientId⟩ := instruction
          cases side with
          | bid =>
              rw [show annotateMaxBid maxPrice
                    (Action.PlaceOrder j ⟨Side.bid, limitPrice, maxQty, clientId⟩ :: rest)
                  = (Action.PlaceOrder j ⟨Side.bid, limitPrice, maxQty, clientId⟩,
                      max maxPrice limitPrice)
                    :: annotateMaxBid (max maxPrice limitPrice) rest from rfl]
              rw [List.filterMap_cons]
              rw [show askContribution i
                    (Action.PlaceOrder j ⟨Side.bid, limitPrice, maxQty, clientId⟩,
                      max maxPrice limitPrice) = none from by simp [askContribution]]
              exact ih _ m i hm
          | ask =>
              rw [show annotateMaxBid maxPrice
                    (Action.PlaceOrder j ⟨Side.ask, limitPrice, maxQty, clientId⟩ :: rest)
                  = (Action.PlaceOrder j ⟨Side.ask, limitPrice, maxQty, clientId⟩, maxPrice)
                    :: annotateMaxBid maxPrice rest from rfl]
              rw [List.filterMap_cons]
              by_cases hj : j = i
              · subst hj
                rw [show askContribution j
                      (Action.PlaceOrder j ⟨Side.ask, limitPrice, maxQty, clientId⟩, maxPrice)
                    = some (pcGainedContribution maxPrice
                        ⟨Side.ask, limitPrice, maxQty, clientId⟩) from by
                  simp [askContribution, pcGainedContribution]]
                have hstep : pcGainedGo maxPrice m
                    (Action.PlaceOrder j ⟨Side.ask, limitPrice, maxQty, clientId⟩ :: rest) j
                    = pcGainedGo maxPrice
                        (bumpSat m j (pcGainedContribution maxPrice
                          ⟨Side.ask, limitPrice, maxQty, clientId⟩)) rest j := rfl
                rw [hstep]
                rw [ih maxPrice _ j (by rw [bumpSat_same]; exact satAdd_le _ _)]
                rw [bumpSat_same]
                exact satAdd_assoc _ _ _
              · rw [show askContribution i
                      (Action.PlaceOrder j ⟨Side.ask, limitPrice, maxQty, clientId⟩, maxPrice)
                    = none from by simp [askContribution, hj]]
                have hstep : pcGainedGo maxPrice m
                    (Action.PlaceOrder j ⟨Side.ask, limitPrice, maxQty, clientId⟩ :: rest) i
                    = pcGainedGo maxPrice
                        (bumpSat m j (pcGainedContribution maxPrice
                          ⟨Side.ask, limitPrice, maxQty, clientId⟩)) rest i := rfl
                rw [hstep]
                rw [ih maxPrice _ i
                  (by rw [bumpSat_other m j i _ (fun h => hj h.symm)]; exact hm)]
                rw [bumpSat_other m j i _ (fun h => hj h.symm)]
      | CancelOrder j slot b => exact ih _ m i hm
      | MatchOrders limit => exact ih _ m i hm
      | ConsumeEvents limit => exact ih _ m i hm
      | SettleFunds j => exact ih _ m i hm

/-! ### Claims -/

/-- C5: for every action log and every owner, the precomputed
max-pc-gained bound (`get_max_possible_pc_gained`) equals the sum over
that owner's ask `PlaceOrder`s of the maximum of the aggressive-take value
(ask max quantity × running-max bid limit price seen so far × pc lot
size) and the passive-provide value (ask max quantity × the ask's own
limit price × pc lot size, inflated by the fixed maker-rebate margin),
with the running-max bid price threaded through the log in generation
order so an ask only sees bids appearing at or before it. -/
theorem max_pc_gained_formula (actions : List Action) (i : OwnerId) :
    get_max_possible_pc_gained actions i = maxPcGainedSpec actions i := by
  have h := pcGainedGo_eq actions 0 (fun _ => 0) i (by simp [U64_MAX])
  rw [get_max_possible_pc_gained, h, maxPcGainedSpec]
  simp only [satAdd, Nat.zero_add]
  exact Nat.min_eq_left (satSum_le _)

/-- C7: each bound calculator is a pure function of the unexecuted action
log (its only argument in this embedding, faithful to the source, which
reads no exchange state): computing any of the four bound maps twice over
the same log yields identical maps. -/
theorem bound_calculators_idempotent (actions : List Action) :
    get_max_possible_coin_gained actions = get_max_possible_coin_gained actions ∧
    get_max_possible_coin_spent actions = get_max_possible_coin_spent actions ∧
    get_max_possible_pc_gained actions = get_max_possible_pc_gained actions ∧
    get_max_possible_pc_spent actions = get_max_possible_pc_spent actions :=
  ⟨rfl, rfl, rfl, rfl⟩

theorem get?_of_lt {α : Type} : ∀ (l : List α) (n : Nat), n < l.length → ∃ x, l.get? n = some x
  | x :: _, 0, _ => ⟨x, rfl⟩
  | _ :: xs, n + 1, h => get?_of_lt xs n (Nat.lt_of_succ_lt_succ h)

/-- C10: the `slot >= 128` guard in the `CancelOrder` arm makes the
executor return immediately (same state, no owner read, no dispatch), and
consequently the indexing of the capacity-128 `orders` and
`client_order_ids` tables never goes out of bounds for any slot value
reaching it. -/
theorem cancel_slot_guard_safe :
    (∀ (ex : Exchange) (s : SimState) (i : OwnerId) (slot : Nat) (b : Bool),
      128 ≤ slot → run_action ex (.CancelOrder i slot b) s = .ok s) ∧
    (∀ (ex : Exchange) (s : SimState) (i : OwnerId) (slot : Nat) (b : Bool),
      World.WF s.world → run_action ex (.CancelOrder i slot b) s ≠ .error .indexOob) := by
  constructor
  · intro ex s i slot b h
    simp only [run_action]
    rw [if_pos h]
  · intro ex s i slot b hWF heq
    simp only [run_action] at heq
    split at heq
    · exact Except.noConfusion heq
    · rename_i h128
      split at heq
      · exact Except.noConfusion heq
      · rename_i o ho
        split at heq
        · exact Except.noConfusion heq
        · rename_i oo hoo
          split at heq
          · exact Except.noConfusion heq
          · rename_i side hss
            split at heq
            · rename_i orderId clientOrderId hoid hcid
              split at heq
              · exact Except.noConfusion heq
              · rename_i instr hinstr
                split at heq <;> first
                  | (split at heq <;> simp_all)
                  | simp_all
            · rename_i hnone
              obtain ⟨hlen1, hlen2⟩ := hWF i o oo ho hoo
              obtain ⟨x, hx⟩ := get?_of_lt oo.orders slot (by omega)
              obtain ⟨y, hy⟩ := get?_of_lt oo.clientOrderIds slot (by omega)
              exact hnone x y hx hy

/-- C9: cancels against an unknown owner or an empty slot and settles
against an unknown owner or one without order-tracking state are
defensive no-ops (identical state, no dispatch, no panic), and the
Scenario-B log consisting only of `CancelOrder{owner=7, slot=0,
by_client_id=false}` with owner 7 never provisioned completes normally
(with a trivially conforming exchange model). -/
theorem defensive_noops :
    (∀ (ex : Exchange) (s : SimState) (i : OwnerId) (slot : Nat) (b : Bool),
      slot < 128 →
      (s.world.owners i = none ∨
        (∃ o, s.world.owners i = some o ∧
          (o.oo = none ∨ ∃ oo, o.oo = some oo ∧ oo.slotSide slot = none))) →
      run_action ex (.CancelOrder i slot b) s = .ok s) ∧
    (∀ (ex : Exchange) (s : SimState) (i : OwnerId),
      (s.world.owners i = none ∨ ∃ o, s.world.owners i = some o ∧ o.oo = none) →
      run_action ex (.SettleFunds i) s = .ok s) ∧
    (∃ s, run_actions 0 okExchange [.CancelOrder 7 0 false] = .ok s) := by
  refine ⟨?_, ?_, ?_⟩
  · intro ex s i slot b hslot hcond
    simp only [run_action]
    rw [if_neg (by omega)]
    split
    · rfl
    · rename_i owner ho'
      rcases hcond with h | ⟨o, ho, h⟩
      · rw [h] at ho'
        exact Option.noConfusion ho'
      · rw [ho] at ho'
        injection ho' with he
        subst he
        rcases h with h | ⟨oo, hoo, hss⟩
        · split
          · rfl
          · rename_i oo' hoo'
            rw [h] at hoo'
            exact Option.noConfusion hoo'
        · split
          · rfl
          · rename_i oo' hoo'
            rw [hoo] at hoo'
            injection hoo' with he2
            subst he2
            split
            · rfl
            · rename_i side hss'
              rw [hss] at hss'
              exact Option.noConfusion hss'
  · intro ex s i hcond
    simp only [run_action]
    split
    · rfl
    · rename_i owner ho'
      rcases hcond with h | ⟨o, ho, h⟩
      · rw [h] at ho'
        exact Option.noConfusion ho'
      · rw [ho] at ho'
        injection ho' with he
        subst he
        rw [h]
        rfl
  · exact ⟨_, by rfl⟩

/-- C3 (code evaluation): for a `CancelOrder` with the by-client-id flag
set that targets an occupied slot whose recorded client order id is 0,
the executor returns early (`if client_order_id == 0 { return; }`) with
the state unchanged — no cancel-by-client-id instruction is ever
dispatched to the exchange, so the expected-rejection machinery
(`expects_zero_id`) is unreachable. -/
theorem zero_client_id_cancel_not_dispatched
    (ex : Exchange) (s : SimState) (i : OwnerId) (slot : Nat)
    (o : Owner) (oo : OpenOrders) (side : Side) (orderId : Nat)
    (hslot : slot < 128)
    (ho : s.world.owners i = some o) (hoo : o.oo = some oo)
    (hss : oo.slotSide slot = some side)
    (hoid : oo.orders.get? slot = some orderId)
    (hcid : oo.clientOrderIds.get? slot = some 0) :
    run_action ex (.CancelOrder i slot true) s = .ok s := by
  simp only [run_action]
  rw [if_neg (by omega)]
  split
  · rfl
  · rename_i owner ho'
    rw [ho] at ho'
    injection ho' with he
    subst he
    split
    · rfl
    · rename_i oo' hoo'
      rw [hoo] at hoo'
      injection hoo' with he2
      subst he2
      split
      · rfl
      · rename_i side' hss'
        split
        · rename_i orderId' clientOrderId' hoid' hcid'
          rw [hcid] at hcid'
          injection hcid' with he3
          subst he3
          rfl
        · rename_i hnone
          exact (hnone orderId 0 hoid hcid).elim

theorem mainLoop_eq_of_lt4 (ex : Exchange) (v v' : Nat) (hv : v < 4) (hv' : v' < 4) :
    ∀ (actions : List Action) (s : SimState),
      mainLoop v ex actions s = mainLoop v' ex actions s := by
  intro actions
  induction actions with
  | nil => intro s; rfl
  | cons a rest ih =>
      intro s
      cases hr : run_action ex a s with
      | error e => simp [mainLoop, hr]
      | ok s1 =>
          simp only [mainLoop, hr]
          rw [if_neg (show ¬4 ≤ v by omega), if_neg (show ¬4 ≤ v' by omega)]
          exact ih s1

/-- C6 (amended): below the diagnostic-forcing threshold (verbosity < 4),
the verbosity level has no effect on semantics: two runs of the same log
against the same exchange that differ only in the verbosity value produce
identical results — the same dispatched-instruction trace and the same
verification outcome.  (At verbosity ≥ 4 the driver forces an extra
`MatchOrders(100)`/`ConsumeEvents(100)` pair after every action, changing
the dispatched sequence; see the counterexample.) -/
theorem verbosity_semantics_invariant_below_4
    (v v' : Nat) (ex : Exchange) (actions : List Action)
    (hv : v < 4) (hv' : v' < 4) :
    run_actions v ex actions = run_actions v' ex actions := by
  simp only [run_actions]
  rw [mainLoop_eq_of_lt4 ex v v' hv hv']

/-- C6 (counterexample): the claim that any two runs differing only in
verbosity execute the same sequence of exchange instructions fails: on
the log `[MatchOrders 5]`, verbosity 0 and verbosity 4 both complete but
dispatch different instruction sequences (verbosity 4 forces an extra
`MatchOrders(100)` after the action). -/
theorem verbosity_changes_dispatch_sequence :
    ∃ s s', run_actions 0 okExchange [.MatchOrders 5] = .ok s ∧
      run_actions 4 okExchange [.MatchOrders 5] = .ok s' ∧
      s.trace ≠ s'.trace := by
  refine ⟨_, _, rfl, rfl, ?_⟩
  decide

theorem foldl_match_filterMap {α : Type} (f : α → Option Action) :
    ∀ (l : List α) (acc : List Action),
      List.foldl (fun acc2 x => match f x with | some c => cancelStep acc2 c | none => acc2) acc l
        = List.foldl cancelStep acc (l.filterMap f) := by
  intro l
  induction l with
  | nil => intro acc; rfl
  | cons x xs ih =>
      intro acc
      simp only [List.foldl_cons, List.filterMap_cons]
      cases hfx : f x with
      | none => exact ih acc
      | some c => simp only [List.foldl_cons]; exact ih (cancelStep acc c)

theorem liqStepOwner_eq (io : OwnerId × Owner) (acc : List Action) :
    liqStepOwner acc io = List.foldl cancelStep acc (ownerCancels io) := by
  cases hoo : io.2.oo with
  | none => simp [liqStepOwner, ownerCancels, hoo]
  | some oo =>
      simp only [liqStepOwner, ownerCancels, hoo]
      rw [← foldl_match_filterMap
        (fun si : Nat × Nat =>
          if 0 < si.2 then some (Action.CancelOrder io.1 si.1 false) else none)]
      apply List.foldl_ext
      intro acc2 si _
      by_cases hpos : 0 < si.2
      · simp [hpos, cancelStep]
      · simp [hpos]

theorem foldl_liqStepOwner_eq (l : List (OwnerId × Owner)) :
    ∀ (acc : List Action),
      List.foldl liqStepOwner acc l
        = List.foldl cancelStep acc ((l.map ownerCancels).flatten) := by
  induction l with
  | nil => intro acc; rfl
  | cons io rest ih =>
      intro acc
      simp only [List.foldl_cons, List.map_cons, List.flatten_cons, List.foldl_append]
      rw [liqStepOwner_eq, ih]

/-- C4 (amended): the liquidation pass is deterministic and proceeds in
ascending `OwnerId` order: it cancels every occupied slot of every owner
with live order-tracking state, forcing a
`MatchOrders(100)`/`ConsumeEvents(100)` cycle whenever the accumulated
liquidation action list's length (the inserted cycle actions included) is
a multiple of 8 — i.e. before the first cancellation and then, in steady
state, every 6 cancellations, not every 8; then forces one final
`MatchOrders(100)`/`ConsumeEvents(100)`; then issues `SettleFunds` for
every owner that has order-tracking state when the list is built. -/
theorem liquidation_structure (w : World) :
    liquidationActions w
      = (interleaveCancels (liqCancels w)
          ++ [Action.MatchOrders 100, Action.ConsumeEvents 100]) ++ liqSettles w := by
  simp only [liquidationActions, interleaveCancels, liqCancels, liqSettles]
  rw [foldl_liqStepOwner_eq]

/-- C4 (counterexample): in a world with one owner holding 7 occupied
slots, the built liquidation list inserts a `MatchOrders(100)` /
`ConsumeEvents(100)` cycle between the 6th and 7th cancellation (the list
length, cycles included, hits a multiple of 8 there), so the cadence is
not "a cycle every 8 cancellations" as the claim states. -/
theorem liquidation_not_every_8_cancels :
    liquidationActions w7
      ≠ (every8Shape (liqCancels w7)
          ++ [Action.MatchOrders 100, Action.ConsumeEvents 100]) ++ liqSettles w7 := by
  decide

theorem mem_ownersList (w : World) (i : OwnerId) (o : Owner) (h : w.owners i = some o) :
    (i, o) ∈ ownersList w := by
  simp only [ownersList, List.mem_filterMap]
  exact ⟨i, List.mem_finRange i, by rw [h]; rfl⟩

theorem run_actions_ok_verify (v : Nat) (ex : Exchange) (actions : List Action) (s : SimState)
    (h : run_actions v ex actions = .ok s) :
    verifyChecks s.world
      (get_max_possible_coin_gained actions) (get_max_possible_coin_spent actions)
      (get_max_possible_pc_gained actions) (get_max_possible_pc_spent actions) = true := by
  simp only [run_actions] at h
  split at h
  · exact Except.noConfusion h
  · rename_i s1 hm
    split at h
    · exact Except.noConfusion h
    · rename_i s2 he
      split at h
      · rename_i hv
        injection h with he2
        subst he2
        exact hv
      · exact Except.noConfusion h

/-- C1: at verification time (i.e. in every run that passes the final
assertions and completes), for each asset the sum over all provisioned
owners of that owner's final token balance plus the exchange's accrued
fees for that asset equals owner count × the asset's fixed initial
balance; the verifier aborts the run fatally otherwise. -/
theorem conservation_at_verification
    (v : Nat) (ex : Exchange) (actions : List Action) (s : SimState)
    (h : run_actions v ex actions = .ok s) :
    totalCoinBal s.world + s.world.coinFeesAccrued
        = ownerCount s.world * INITIAL_COIN_BALANCE ∧
    totalPcBal s.world + s.world.pcFeesAccrued
        = ownerCount s.world * INITIAL_PC_BALANCE := by
  have hv := run_actions_ok_verify v ex actions s h
  simp only [verifyChecks, Bool.and_eq_true, decide_eq_true_eq] at hv
  exact ⟨hv.1.1, hv.1.2⟩

/-- C2: in every run that completes verification, every provisioned
owner's locked ("total") open-orders balances in both assets
(`native_coin_total` and `native_pc_total`) are exactly zero after the
liquidation pass; the verifier aborts the run fatally otherwise. -/
theorem zero_residual_after_liquidation
    (v : Nat) (ex : Exchange) (actions : List Action) (s : SimState)
    (i : OwnerId) (o : Owner) (oo : OpenOrders)
    (h : run_actions v ex actions = .ok s)
    (ho : s.world.owners i = some o) (hoo : o.oo = some oo) :
    oo.nativeCoinTotal = 0 ∧ oo.nativePcTotal = 0 := by
  have hv := run_actions_ok_verify v ex actions s h
  simp only [verifyChecks, Bool.and_eq_true] at hv
  have hall := hv.2
  rw [List.all_eq_true] at hall
  have hc := hall _ (mem_ownersList s.world i o ho)
  simp only [ownerCheck, Bool.and_eq_true] at hc
  have hres := hc.2
  rw [hoo] at hres
  simp only [Bool.and_eq_true, decide_eq_true_eq] at hres
  exact hres

theorem ownersList_mem (w : World) {io : OwnerId × Owner} (h : io ∈ ownersList w) :
    w.owners io.1 = some io.2 := by
  simp only [ownersList, List.mem_filterMap] at h
  obtain ⟨a, -, hmap⟩ := h
  cases ha : w.owners a with
  | none => rw [ha] at hmap; exact Option.noConfusion hmap
  | some o' =>
      rw [ha] at hmap
      injection hmap with hpair
      rw [← hpair]
      exact ha

/-- C8: `ConsumeEvents(limit)` gathers the order-tracking accounts of all
owners that currently have live order-tracking state, sorted by the
canonical aligned-bytes key of each owner's orders-account identity, and
is a no-op (same state, no dispatch) when no owner qualifies; when some
owner qualifies, the dispatched account list is exactly the sorted
gathered accounts followed by the market, event-queue and vault
accounts. -/
theorem consume_events_gather (ex : Exchange) (s : SimState) (limit : Nat) :
    (consumeGathered s.world = [] → run_action ex (.ConsumeEvents limit) s = .ok s) ∧
    (consumeGathered s.world = [] ↔
      ∀ (i : OwnerId) (o : Owner), s.world.owners i = some o → o.oo = none) ∧
    (consumeSorted s.world).Perm (consumeGathered s.world) ∧
    (consumeSorted s.world).Pairwise (fun a b => toAlignedBytes a ≤ toAlignedBytes b) ∧
    (∀ s', consumeGathered s.world ≠ [] →
      run_action ex (.ConsumeEvents limit) s = .ok s' →
      s'.trace = s.trace ++ [(MarketInstruction.ConsumeEvents limit,
        consumeSorted s.world ++ [MARKET_KEY, EVENT_Q_KEY, COIN_VAULT_KEY, PC_VAULT_KEY])]) := by
  have hperm : (consumeSorted s.world).Perm (consumeGathered s.world) :=
    List.perm_insertionSort _ _
  refine ⟨?_, ?_, hperm, ?_, ?_⟩
  · intro h
    have hcs : consumeSorted s.world = [] := by
      rw [consumeSorted, h]
      rfl
    simp only [run_action, hcs]
    rfl
  · constructor
    · intro h i o ho
      cases hoo : o.oo with
      | none => rfl
      | some oo =>
          exfalso
          have hmem : o.ordersKey ∈ consumeGathered s.world := by
            simp only [consumeGathered, List.mem_filterMap]
            exact ⟨(i, o), mem_ownersList s.world i o ho, by rw [hoo]; rfl⟩
          rw [h] at hmem
          exact List.not_mem_nil _ hmem
    · intro h
      rw [consumeGathered, List.filterMap_eq_nil_iff]
      intro io hio
      rw [h io.1 io.2 (ownersList_mem s.world hio)]
      rfl
  · haveI : IsTotal Nat (fun a b => toAlignedBytes a ≤ toAlignedBytes b) :=
      ⟨fun a b => Nat.le_total _ _⟩
    haveI : IsTrans Nat (fun a b => toAlignedBytes a ≤ toAlignedBytes b) :=
      ⟨fun _ _ _ hab hbc => Nat.le_trans hab hbc⟩
    exact List.sorted_insertionSort _ _
  · intro s' hne hok
    simp only [run_action] at hok
    split at hok
    · rename_i hempty
      exfalso
      apply hne
      have h1 : consumeSorted s.world = [] := by
        cases hcs : consumeSorted s.world with
        | nil => rfl
        | cons a l => rw [hcs] at hempty; simp at hempty
      rw [h1] at hperm
      exact hperm.symm.eq_nil
    · split at hok
      · injection hok with h'
        rw [← h']
      · exact Except.noConfusion hok

/-- Witness for C1: a complete run (empty log, trivially conforming
exchange) whose final state satisfies both conservation equations. -/
theorem conservation_at_verification_witness :
    ∃ s, run_actions 0 okExchange [] = .ok s ∧
      (totalCoinBal s.world + s.world.coinFeesAccrued
          = ownerCount s.world * INITIAL_COIN_BALANCE ∧
        totalPcBal s.world + s.world.pcFeesAccrued
          = ownerCount s.world * INITIAL_PC_BALANCE) := by
  refine ⟨_, rfl, ?_⟩
  exact conservation_at_verification 0 okExchange [] _ rfl

/-- Witness for C2: a complete run in which owner 0 ends with live
order-tracking state whose locked totals are zero. -/
theorem zero_residual_after_liquidation_witness :
    ∃ s, run_actions 0 initOOExchange [.PlaceOrder 0 inst0] = .ok s ∧
      s.world.owners 0 = some ownerC2 ∧ ownerC2.oo = some zeroOO ∧
      (zeroOO.nativeCoinTotal = 0 ∧ zeroOO.nativePcTotal = 0) := by
  refine ⟨_, rfl, rfl, rfl, ?_⟩
  exact zero_residual_after_liquidation 0 initOOExchange [.PlaceOrder 0 inst0]
    _ 0 ownerC2 zeroOO rfl rfl rfl

/-- Witness for C3's theorem: a concrete occupied slot with client order
id 0 on which the by-client-id cancel returns without dispatching. -/
theorem zero_client_id_cancel_not_dispatched_witness :
    (0:Nat) < 128 ∧ sC3.world.owners 2 = some ownerC3 ∧ ownerC3.oo = some ooC3 ∧
    ooC3.slotSide 0 = some Side.bid ∧ ooC3.orders.get? 0 = some 5 ∧
    ooC3.clientOrderIds.get? 0 = some 0 ∧
    run_action okExchange (.CancelOrder 2 0 true) sC3 = .ok sC3 :=
  ⟨by decide, rfl, rfl, rfl, rfl, rfl,
    zero_client_id_cancel_not_dispatched okExchange sC3 2 0 ownerC3 ooC3 Side.bid 5
      (by decide) rfl rfl rfl rfl rfl⟩

/-- Witness for C6's amended theorem: two sub-threshold verbosity levels
produce identical runs on a concrete log. -/
theorem verbosity_semantics_invariant_below_4_witness :
    (0:Nat) < 4 ∧ (1:Nat) < 4 ∧
    run_actions 0 okExchange [.MatchOrders 7] = run_actions 1 okExchange [.MatchOrders 7] :=
  ⟨by decide, by decide,
    verbosity_semantics_invariant_below_4 0 1 okExchange [.MatchOrders 7]
      (by decide) (by decide)⟩

/-- Witness for C8: with two qualifying owners whose orders-account keys
arrive out of order, `ConsumeEvents` dispatches the sorted account
list. -/
theorem consume_events_gather_witness :
    consumeGathered sC8.world ≠ [] ∧
    ∃ s', run_action okExchange (.ConsumeEvents 3) sC8 = .ok s' ∧
      s'.trace = sC8.trace ++ [(MarketInstruction.ConsumeEvents 3,
        consumeSorted sC8.world ++ [MARKET_KEY, EVENT_Q_KEY, COIN_VAULT_KEY, PC_VAULT_KEY])] := by
  refine ⟨by decide, _, rfl, ?_⟩
  exact (consume_events_gather okExchange sC8 3).2.2.2.2 _ (by decide) rfl

/-- Witness for C9: concrete defensive no-ops against an empty registry,
discharging each hypothesis. -/
theorem defensive_noops_witness :
    ((2:Nat) < 128 ∧ sEmpty.world.owners 3 = none ∧
      run_action okExchange (.CancelOrder 3 2 true) sEmpty = .ok sEmpty) ∧
    (sEmpty.world.owners 5 = none ∧
      run_action okExchange (.SettleFunds 5) sEmpty = .ok sEmpty) :=
  ⟨⟨by decide, rfl,
      defensive_noops.1 okExchange sEmpty 3 2 true (by decide) (Or.inl rfl)⟩,
    ⟨rfl, defensive_noops.2.1 okExchange sEmpty 5 (Or.inl rfl)⟩⟩

/-- Witness for C10: the guard fires at a concrete slot ≥ 128 and a
well-formed concrete state never produces the index-out-of-bounds
failure. -/
theorem cancel_slot_guard_safe_witness :
    (128:Nat) ≤ 200 ∧
    run_action okExchange (.CancelOrder 0 200 false) sEmpty = .ok sEmpty ∧
    World.WF sEmpty.world ∧
    run_action okExchange (.CancelOrder 0 5 true) sEmpty ≠ .error .indexOob := by
  have hWF : World.WF sEmpty.world := fun i o oo h => Option.noConfusion h
  exact ⟨by decide,
    cancel_slot_guard_safe.1 okExchange sEmpty 0 200 false (by decide),
    hWF,
    cancel_slot_guard_safe.2 okExchange sEmpty 0 5 true hWF⟩

end SerumFuzz
